import Mathlib

/-!
Verification of the sweep-line segment-intersection core of the repository
(`src/cga/primitives` and `src/cga/line_intersection`).

Python floats are modelled as exact rationals (`ℚ`); `math.isclose` with its
default relative tolerance `1e-9` and `sys.float_info.epsilon = 2^-52` are
modelled exactly.  All definitions mirror the Python source line by line;
comments record the few places where the model must pick a convention the
source leaves to the Python runtime (set iteration order, unbounded loops).
-/

set_option maxHeartbeats 1000000

namespace CGP

/-! ## primitives/definitions.py -/

/-- `Point` dataclass: cartesian point; dataclass equality is fieldwise. -/
structure Point where
  x : ℚ
  y : ℚ
deriving DecidableEq, Repr, Inhabited

/-- `Line` dataclass: directed segment.  The Python field `end` is a Lean
keyword, rendered here as `endp`.  Dataclass equality is fieldwise on
`(start, end)`. -/
structure Line where
  start : Point
  endp : Point
deriving DecidableEq, Repr, Inhabited

/-- Models `Line.__hash__`: the hash is taken of the frozenset of the two
endpoint `(x, y)` tuples, so equal endpoint sets give equal hashes.  We model
the hash input (the frozenset) rather than the integer hash value. -/
def lineHashKey (l : Line) : Finset (ℚ × ℚ) :=
  {(l.start.x, l.start.y), (l.endp.x, l.endp.y)}

/-- `math.isclose` with the default `rel_tol=1e-9`, `abs_tol=0.0`:
`|a-b| <= max(rel_tol * max(|a|,|b|), 0)`. -/
def relTol : ℚ := 1 / 1000000000

def isclose (a b : ℚ) : Bool :=
  decide (|a - b| ≤ relTol * max |a| |b|)

/-! ## primitives/get_intersection.py -/

/-- `get_intersection(l1, l2)`.  The source line 24 reads
`p1, p2 = l1.start, l2.end` (not `l1.end`); the model reproduces it. -/
def get_intersection (l1 l2 : Line) : Option Point :=
  let p1 := l1.start
  let p2 := l2.endp
  let p3 := l2.start
  let p4 := l2.endp
  let den := (p2.x - p1.x) * (p4.y - p3.y) - (p2.y - p1.y) * (p4.x - p3.x)
  if den = 0 then none
  else
    let t_num := (p3.x - p1.x) * (p4.y - p3.y) - (p3.y - p1.y) * (p4.x - p3.x)
    let u_num := (p3.x - p1.x) * (p2.y - p1.y) - (p3.y - p1.y) * (p2.x - p1.x)
    let t := t_num / den
    let u := u_num / den
    if 0 ≤ t ∧ t ≤ 1 ∧ 0 ≤ u ∧ u ≤ 1 then
      some ⟨p1.x + t * (p2.x - p1.x), p1.y + t * (p2.y - p1.y)⟩
    else none

/-- The intersection routine the spec describes (`intersect(segmentA,
segmentB) → Point or none`, parameters `t` along A and `u` along B both in
`[0,1]`): identical to `get_intersection` except that the first segment's
direction uses `l1.end`, i.e. `p1, p2 = l1.start, l1.end`. -/
def get_intersection_specified (l1 l2 : Line) : Option Point :=
  let p1 := l1.start
  let p2 := l1.endp
  let p3 := l2.start
  let p4 := l2.endp
  let den := (p2.x - p1.x) * (p4.y - p3.y) - (p2.y - p1.y) * (p4.x - p3.x)
  if den = 0 then none
  else
    let t_num := (p3.x - p1.x) * (p4.y - p3.y) - (p3.y - p1.y) * (p4.x - p3.x)
    let u_num := (p3.x - p1.x) * (p2.y - p1.y) - (p3.y - p1.y) * (p2.x - p1.x)
    let t := t_num / den
    let u := u_num / den
    if 0 ≤ t ∧ t ≤ 1 ∧ 0 ≤ u ∧ u ≤ 1 then
      some ⟨p1.x + t * (p2.x - p1.x), p1.y + t * (p2.y - p1.y)⟩
    else none

/-! ## line_intersection/event_queue.py -/

/-- `EventType(Enum)` with `auto()` values `UPPER = 1`, `LOWER = 2`,
`INTERIOR = 3`. -/
inductive EventType where
  | UPPER : EventType
  | LOWER : EventType
  | INTERIOR : EventType
deriving DecidableEq, Repr, Inhabited

/-- The `auto()` value of each member. -/
def EventType.value : EventType → Nat
  | .UPPER => 1
  | .LOWER => 2
  | .INTERIOR => 3

namespace EQ

/-- `Node` dataclass of `event_queue.py` (heap entry). -/
structure Node where
  point : Point
  line : Line
  event_type : EventType
  id : Nat
deriving DecidableEq, Repr, Inhabited

/-- `EventQueue.__init__`: empty heap list and id counter `_next_id = 0`. -/
structure EventQueue where
  heap : List Node
  next_id : Nat
deriving DecidableEq, Repr, Inhabited

def EventQueue.empty : EventQueue := ⟨[], 0⟩

/-- `number_items` property. -/
def number_items (q : EventQueue) : Nat := q.heap.length

/-- In-bounds list indexing `heap[i]` (every access in the source is
in bounds; out of range yields the default node). -/
def get (l : List Node) (i : Nat) : Node := (l[i]?).getD default

/-- `_has_higher_priority(child, parent)`. -/
def _has_higher_priority (child parent : Node) : Bool :=
  if child.point.y ≠ parent.point.y then
    decide (child.point.y > parent.point.y)
  else if child.point.x ≠ parent.point.x then
    decide (child.point.x < parent.point.x)
  else if child.event_type ≠ parent.event_type then
    decide (child.event_type.value < parent.event_type.value)
  else
    decide (child.id < parent.id)

/-- `peek_point`: point of the root, or `None` on an empty heap. -/
def peek_point (q : EventQueue) : Option Point :=
  match q.heap with
  | [] => none
  | n :: _ => some n.point

/-- `_add_item`: append a node carrying the current `_next_id`, increment the
counter, return the new node's index. -/
def _add_item (q : EventQueue) (point : Point) (e_type : EventType)
    (line : Line) : EventQueue × Nat :=
  let new_node : Node := ⟨point, line, e_type, q.next_id⟩
  (⟨q.heap ++ [new_node], q.next_id + 1⟩, q.heap.length)

/-- `_sift_up`: bubble the child at `c_index` towards the root while it has
strictly higher priority than its parent.  The Python `while c_index > 0`
loop strictly decreases `c_index`, so the structural fuel argument, set to
`c_index + 1` at the call site, never runs out. -/
def _sift_up : Nat → List Node → Nat → List Node
  | 0, heap, _ => heap
  | fuel + 1, heap, c_index =>
    if c_index > 0 then
      let p_index := (c_index - 1) / 2
      if _has_higher_priority (get heap c_index) (get heap p_index) then
        _sift_up fuel ((heap.set c_index (get heap p_index)).set p_index
          (get heap c_index)) p_index
      else heap
    else heap

/-- `enqueue`. -/
def enqueue (q : EventQueue) (point : Point) (e_type : EventType)
    (line : Line) : EventQueue :=
  let r := _add_item q point e_type line
  ⟨_sift_up (r.2 + 1) r.1.heap r.2, r.1.next_id⟩

/-- First selection step of `_sift_down`'s loop body: `highest` after the
left-child check (`highest = left_child` if the left child exists and beats
the current node, else `r_index`). -/
def _sd_check_left (heap : List Node) (r_index : Nat) : Nat :=
  let max_i := heap.length - 1
  let left_child := 2 * r_index + 1
  if left_child ≤ max_i ∧
      _has_higher_priority (get heap left_child) (get heap r_index) then
    left_child
  else r_index

/-- Second selection step of `_sift_down`'s loop body: `highest` after the
right-child check. -/
def _sd_highest (heap : List Node) (r_index : Nat) : Nat :=
  let max_i := heap.length - 1
  let right_child := 2 * r_index + 2
  let h1 := _sd_check_left heap r_index
  if right_child ≤ max_i ∧
      _has_higher_priority (get heap right_child) (get heap h1) then
    right_child
  else h1

/-- `_sift_down`: push the node at `r_index` down, swapping with its highest
priority child while one beats it.  The in-loop selection of `highest`
(left-child check, then right-child check) is `_sd_check_left` /
`_sd_highest` above.  The loop strictly increases `r_index`, which stays
below the heap size, so the structural fuel argument, set to the heap size
at the call site, never runs out. -/
def _sift_down : Nat → List Node → Nat → List Node
  | 0, heap, _ => heap
  | fuel + 1, heap, r_index =>
    let highest := _sd_highest heap r_index
    if highest ≠ r_index then
      _sift_down fuel ((heap.set r_index (get heap highest)).set highest
        (get heap r_index)) highest
    else heap

/-- `dequeue`: returns `none` where the source raises
`IndexError("Cannot dequeue from an empty EventQueue")`. -/
def dequeue (q : EventQueue) : Option (Node × EventQueue) :=
  match q.heap with
  | [] => none
  | _ :: _ =>
    let max_item := get q.heap 0
    if q.heap.length = 1 then
      some (max_item, ⟨[], q.next_id⟩)
    else
      -- `self.heap[0] = self.heap.pop()` then `_sift_down(0)`
      let newHeap := (q.heap.dropLast).set 0 (get q.heap (q.heap.length - 1))
      some (max_item, ⟨_sift_down newHeap.length newHeap 0, q.next_id⟩)

end EQ

/-! ## line_intersection/status_tree.py -/

namespace ST

/-- `EPSILON = sys.float_info.epsilon` (exactly `2^-52`). -/
def EPSILON : ℚ := 1 / 2 ^ 52

/-- `Node` dataclass of `status_tree.py` (AVL node), with `.nil` for the
Python `None` child; field order as in the source
(`line, height, right_child, left_child`). -/
inductive Node where
  | nil : Node
  | node (line : Line) (height : Nat) (right_child : Node)
      (left_child : Node) : Node
deriving DecidableEq, Repr, Inhabited

/-- `node.line` (default on `None`, which the source never dereferences). -/
def line_of : Node → Line
  | .nil => default
  | .node l _ _ _ => l

/-- `node.right_child`. -/
def right_of : Node → Node
  | .nil => .nil
  | .node _ _ r _ => r

/-- `node.left_child`. -/
def left_of : Node → Node
  | .nil => .nil
  | .node _ _ _ l => l

/-- `_sweep_intersect(line, sweep_y)`: x-coordinate of the segment at the
sweep height (`by` is a Lean keyword, rendered `b_y`). -/
def _sweep_intersect (line : Line) (sweep_y : ℚ) : ℚ :=
  let ax := line.start.x
  let ay := line.start.y
  let bx := line.endp.x
  let b_y := line.endp.y
  if isclose bx ax then ax
  else
    let delta_y := b_y - ay
    let delta_x := bx - ax
    if isclose delta_y 0 then min ax bx
    else ax + (sweep_y - ay) * (delta_x / delta_y)

/-- `_get_dx_dy(line)`: `dx / dy` if `dy != 0`, else `float('inf')`
(modelled as `⊤` in `WithTop ℚ`, which compares like the IEEE infinity). -/
def _get_dx_dy (line : Line) : WithTop ℚ :=
  let dx := line.endp.x - line.start.x
  let dy := line.endp.y - line.start.y
  if dy ≠ 0 then ((dx / dy : ℚ) : WithTop ℚ)
  else ⊤

/-- `StatusStructure` state: AVL root and current sweep height.  The Python
constructor sets `current_sweep_y = float('inf')`; it is overwritten by
`update_sweep_line` before any comparison in `find_intersections`, so the
model initialises it to `0`. -/
structure StatusStructure where
  tree : Node
  current_sweep_y : ℚ
deriving DecidableEq, Repr, Inhabited

def StatusStructure.empty : StatusStructure := ⟨.nil, 0⟩

/-- `update_sweep_line`. -/
def update_sweep_line (st : StatusStructure) (sweep_y : ℚ) : StatusStructure :=
  { st with current_sweep_y := sweep_y }

/-- `_compare_segments(s1, s2)` under the structure's current sweep height. -/
def _compare_segments (st : StatusStructure) (s1 s2 : Line) : Int :=
  if s1 = s2 then 0
  else
    let s1_x := _sweep_intersect s1 st.current_sweep_y
    let s2_x := _sweep_intersect s2 st.current_sweep_y
    if isclose s1_x s2_x then 0
    else if _get_dx_dy s1 < _get_dx_dy s2 then -1
    else 1

/-- `_node_height`. -/
def _node_height : Node → Nat
  | .nil => 0
  | .node _ h _ _ => h

/-- `_rotate_right` (Python mutates `node` and `new_root`; the model builds
the same two updated nodes).  The fall-through case is unreachable in the
source (it would dereference `None`). -/
def _rotate_right (node : Node) : Node :=
  match node with
  | .node line _ right_child (.node l_line _ l_right l_left) =>
    let node' : Node :=
      .node line (1 + max (_node_height l_right) (_node_height right_child))
        right_child l_right
    .node l_line (1 + max (_node_height l_left) (_node_height node'))
      node' l_left
  | n => n

/-- `_rotate_left`, mirror image of `_rotate_right`. -/
def _rotate_left (node : Node) : Node :=
  match node with
  | .node line _ (.node r_line _ r_right r_left) left_child =>
    let node' : Node :=
      .node line (1 + max (_node_height left_child) (_node_height r_left))
        r_left left_child
    .node r_line (1 + max (_node_height node') (_node_height r_right))
      r_right node'
  | n => n

/-- `_balance_factor` (right height minus left height, as a Python int). -/
def _balance_factor (node : Node) : Int :=
  (_node_height (right_of node) : Int) - (_node_height (left_of node) : Int)

/-- `node.left_child = x` on a non-`None` node. -/
def set_left (node : Node) (newl : Node) : Node :=
  match node with
  | .nil => .nil
  | .node l h r _ => .node l h r newl

/-- `node.right_child = x` on a non-`None` node. -/
def set_right (node : Node) (newr : Node) : Node :=
  match node with
  | .nil => .nil
  | .node l h _ c => .node l h newr c

/-- `_balance_node`. -/
def _balance_node (node : Node) : Node :=
  let balance := _balance_factor node
  if balance < -1 then
    let left_child_balance := _balance_factor (left_of node)
    if left_child_balance ≤ 0 then _rotate_right node
    else _rotate_right (set_left node (_rotate_left (left_of node)))
  else if balance > 1 then
    let right_child_balance := _balance_factor (right_of node)
    if right_child_balance ≥ 0 then _rotate_left node
    else _rotate_left (set_right node (_rotate_right (right_of node)))
  else node

/-- `_insert_node(node, line)`: recursive AVL insertion; the returned flag
records whether the insertion point coincided with an existing segment
(`order == 0` branch inserts to the right and reports an intersection). -/
def _insert_node (st : StatusStructure) (node : Node) (line : Line) :
    Node × Bool :=
  match node with
  | .nil => (.node line 1 .nil .nil, false)
  | .node n_line _ n_right n_left =>
    let order := _compare_segments st line n_line
    if order = -1 then
      let r := _insert_node st n_left line
      let node2 : Node :=
        .node n_line (1 + max (_node_height r.1) (_node_height n_right))
          n_right r.1
      (_balance_node node2, r.2)
    else if order = 1 then
      let r := _insert_node st n_right line
      let node2 : Node :=
        .node n_line (1 + max (_node_height n_left) (_node_height r.1))
          r.1 n_left
      (_balance_node node2, r.2)
    else
      let r := _insert_node st n_right line
      let node2 : Node :=
        .node n_line (1 + max (_node_height n_left) (_node_height r.1))
          r.1 n_left
      (_balance_node node2, true)

/-- `insert` wrapper. -/
def insert (st : StatusStructure) (line : Line) : StatusStructure × Bool :=
  let r := _insert_node st st.tree line
  ({ st with tree := r.1 }, r.2)

/-- `_min_node`: leftmost node of a subtree (the source loops on
`current.left_child`; called only on non-`None` nodes). -/
def _min_node : Node → Node
  | .nil => .nil
  | .node l h r left =>
    match left with
    | .nil => .node l h r .nil
    | .node l2 h2 r2 left2 => _min_node (.node l2 h2 r2 left2)

/-- `_delete_node(node, line)`: recursive AVL deletion; the node whose key
compares `0` with `line` on the search path is removed. -/
def _delete_node (st : StatusStructure) (node : Node) (line : Line) : Node :=
  match node with
  | .nil => .nil
  | .node n_line _ n_right n_left =>
    let order := _compare_segments st line n_line
    if order = -1 then
      let nl := _delete_node st n_left line
      let node2 : Node :=
        .node n_line (1 + max (_node_height nl) (_node_height n_right))
          n_right nl
      _balance_node node2
    else if order = 1 then
      let nr := _delete_node st n_right line
      let node2 : Node :=
        .node n_line (1 + max (_node_height n_left) (_node_height nr))
          nr n_left
      _balance_node node2
    else
      match n_left with
      | .nil => n_right
      | .node _ _ _ _ =>
        match n_right with
        | .nil => n_left
        | .node _ _ _ _ =>
          let successor := _min_node n_right
          let new_right := _delete_node st n_right (line_of successor)
          let node2 : Node :=
            .node (line_of successor)
              (1 + max (_node_height n_left) (_node_height new_right))
              new_right n_left
          _balance_node node2

/-- `delete` wrapper. -/
def delete (st : StatusStructure) (line : Line) : StatusStructure :=
  { st with tree := _delete_node st st.tree line }

/-- Largest line of a subtree (`find_neighbors`' inner loop
`while left_node.right_child`). -/
def rightmost_line : Node → Option Line
  | .nil => none
  | .node l _ r _ =>
    match r with
    | .nil => some l
    | .node l2 h2 r2 left2 => rightmost_line (.node l2 h2 r2 left2)

/-- Smallest line of a subtree (`find_neighbors`' inner loop
`while right_node.left_child`). -/
def leftmost_line : Node → Option Line
  | .nil => none
  | .node l _ _ left =>
    match left with
    | .nil => some l
    | .node l2 h2 r2 left2 => leftmost_line (.node l2 h2 r2 left2)

/-- The `while current` descent of `find_neighbors`, with the running
`left`/`right` candidates as accumulators. -/
def find_neighbors_aux (st : StatusStructure) (line : Line) :
    Node → Option Line → Option Line → Option Line × Option Line
  | .nil, left, right => (left, right)
  | .node n_line _ n_right n_left, left, right =>
    let order := _compare_segments st line n_line
    if order = 0 then
      let left' := match n_left with
        | .nil => left
        | t => rightmost_line t
      let right' := match n_right with
        | .nil => right
        | t => leftmost_line t
      (left', right')
    else if order = -1 then
      find_neighbors_aux st line n_left left (some n_line)
    else
      find_neighbors_aux st line n_right (some n_line) right

/-- `find_neighbors(line)`. -/
def find_neighbors (st : StatusStructure) (line : Line) :
    Option Line × Option Line :=
  find_neighbors_aux st line st.tree none none

/-- The `while current` descent of `find_neighbors_at_point`. -/
def find_neighbors_at_point_aux (st : StatusStructure) (event_point : Point) :
    Node → Option Line → Option Line → Option Line × Option Line
  | .nil, left, right => (left, right)
  | .node n_line _ n_right n_left, left, right =>
    let seg_x := _sweep_intersect n_line event_point.y
    if isclose seg_x event_point.x then
      find_neighbors st n_line
    else if event_point.x < seg_x then
      find_neighbors_at_point_aux st event_point n_left left (some n_line)
    else
      find_neighbors_at_point_aux st event_point n_right (some n_line) right

/-- `find_neighbors_at_point(event_point)`. -/
def find_neighbors_at_point (st : StatusStructure) (event_point : Point) :
    Option Line × Option Line :=
  find_neighbors_at_point_aux st event_point st.tree none none

/-- `get_leftmost_segment_of_group(group)`: fold mirroring the loop with its
`leftmost_segment` / `leftmost_x` accumulators (strict `<` update). -/
def get_leftmost_segment_of_group (st : StatusStructure)
    (group : List Line) : Option Line :=
  match group with
  | [] => none
  | _ =>
    let sweep_y := st.current_sweep_y - EPSILON
    let r := group.foldl
      (fun (acc : Option (Line × ℚ)) (segment : Line) =>
        let x_at_sweep := _sweep_intersect segment sweep_y
        match acc with
        | none => some (segment, x_at_sweep)
        | some (ls, lx) =>
          if x_at_sweep < lx then some (segment, x_at_sweep)
          else some (ls, lx))
      none
    r.map (·.1)

/-- `get_rightmost_of_group(group)` (strict `>` update). -/
def get_rightmost_of_group (st : StatusStructure)
    (group : List Line) : Option Line :=
  match group with
  | [] => none
  | _ =>
    let sweep_y := st.current_sweep_y - EPSILON
    let r := group.foldl
      (fun (acc : Option (Line × ℚ)) (segment : Line) =>
        let x_at_sweep := _sweep_intersect segment sweep_y
        match acc with
        | none => some (segment, x_at_sweep)
        | some (rs, rx) =>
          if x_at_sweep > rx then some (segment, x_at_sweep)
          else some (rs, rx))
      none
    r.map (·.1)

/-- In-order traversal of the AVL tree (left-to-right order of the stored
segments); used to state properties, not part of the source. -/
def inorder : Node → List Line
  | .nil => []
  | .node l _ r left => inorder left ++ [l] ++ inorder r

end ST

/-! ## line_intersection/find_intersections.py -/

namespace FI

open EQ ST

/-- `_normalize_line(line)`. -/
def _normalize_line (line : Line) : Line :=
  if line.start.y < line.endp.y then ⟨line.endp, line.start⟩
  else if line.start.y = line.endp.y ∧ line.start.x > line.endp.x then
    ⟨line.endp, line.start⟩
  else line

/-- `_add_upper_segment_points(queue, segments)`: enqueue every upper
endpoint, then every lower endpoint. -/
def _add_upper_segment_points (queue : EventQueue) (segments : List Line) :
    EventQueue :=
  let q1 := segments.foldl
    (fun q segment => enqueue q segment.start .UPPER segment) queue
  segments.foldl
    (fun q segment => enqueue q segment.endp .LOWER segment) q1

/-- `_find_new_event(queue, left_segment, right_segment, event)`. -/
def _find_new_event (queue : EventQueue) (left_segment right_segment : Line)
    (event : Point) : EventQueue :=
  match get_intersection left_segment right_segment with
  | none => queue
  | some point =>
    if point.y < event.y ∨ (point.y = event.y ∧ point.x > event.x) then
      enqueue (enqueue queue point .INTERIOR left_segment)
        point .INTERIOR right_segment
    else queue

/-- `_handle_event_point(event, current_event, status, queue)`.  The Python
role-partition loop is rendered as three order-preserving filters; the
iteration over `set(upper) | set(interior)` has unspecified order in Python
and is modelled as first-occurrence order of `upper ++ interior`. -/
def _handle_event_point (event : Point) (current_event : List EQ.Node)
    (status : StatusStructure) (queue : EventQueue) :
    List Point × StatusStructure × EventQueue :=
  let upper := (current_event.filter
    (fun n => n.event_type = EventType.UPPER)).map (·.line)
  let lower := (current_event.filter
    (fun n => n.event_type = EventType.LOWER)).map (·.line)
  let interior := (current_event.filter
    (fun n => n.event_type = EventType.INTERIOR)).map (·.line)
  -- segment_union = set(upper) | set(lower) | set(interior)
  let segment_union := (upper ++ lower ++ interior).dedup
  let intersections : List Point :=
    if segment_union.length > 1 then [event] else []
  -- deletions: interior first, then lower
  let status1 := interior.foldl (fun s seg => delete s seg) status
  let status2 := lower.foldl (fun s seg => delete s seg) status1
  -- for segment in (set(upper) | set(interior)): insert and probe neighbors
  let ins := (upper ++ interior).dedup
  let r := ins.foldl
    (fun (acc : StatusStructure × EventQueue) segment =>
      let st1 := (insert acc.1 segment).1  -- returned flag unused in source
      let nbrs := find_neighbors st1 segment
      let q1 := match nbrs.1 with
        | some l => _find_new_event acc.2 l segment event
        | none => acc.2
      let q2 := match nbrs.2 with
        | some rseg => _find_new_event q1 segment rseg event
        | none => q1
      (st1, q2))
    (status2, queue)
  let status3 := r.1
  let queue1 := r.2
  if upper = [] ∧ interior = [] then
    -- `if not (upper or interior)`
    let nbrs := find_neighbors_at_point status3 event
    match nbrs.1, nbrs.2 with
    | some l, some rseg =>
      (intersections, status3, _find_new_event queue1 l rseg event)
    | _, _ => (intersections, status3, queue1)
  else
    let leftmost := get_leftmost_segment_of_group status3 (upper ++ interior)
    let double_left := match leftmost with
      | some l => (find_neighbors status3 l).1
      | none => none  -- unreachable: the group is non-empty here
    let queue2 := match leftmost, double_left with
      | some l, some dl => _find_new_event queue1 dl l event
      | _, _ => queue1
    let rightmost := get_rightmost_of_group status3 (upper ++ interior)
    let double_right := match rightmost with
      | some rseg => (find_neighbors status3 rseg).2
      | none => none  -- unreachable: the group is non-empty here
    let queue3 := match rightmost, double_right with
      | some rseg, some dr => _find_new_event queue2 dr rseg event
      | _, _ => queue2
    (intersections, status3, queue3)

/-- State of the `while queue.number_items > 0` loop of
`find_intersections`. -/
structure SweepState where
  queue : EventQueue
  status : StatusStructure
  intersections : List Point
deriving DecidableEq, Repr

/-- The inner `while queue.peek_point() == event.point` drain loop; each
iteration dequeues, so `number_items` of the queue bounds the iteration
count and is passed as fuel. -/
def drain (queue : EventQueue) (pt : Point) : Nat → List EQ.Node × EventQueue
  | 0 => ([], queue)
  | fuel + 1 =>
    match peek_point queue with
    | some p =>
      if p = pt then
        match dequeue queue with
        | some nq =>
          let r := drain nq.2 pt fuel
          (nq.1 :: r.1, r.2)
        | none => ([], queue)  -- unreachable: peek returned a point
      else ([], queue)
    | none => ([], queue)

/-- One iteration of the sweep loop: dequeue the next event, drain all
events at the same point, advance the sweep line and handle the event point.
Returns `none` when the queue is empty (the loop stops). -/
def sweep_step (s : SweepState) : Option SweepState :=
  match dequeue s.queue with
  | none => none
  | some (event, q1) =>
    let r := drain q1 event.point (number_items q1)
    let current_events := event :: r.1
    let status1 := update_sweep_line s.status event.point.y
    let h := _handle_event_point event.point current_events status1 r.2
    some ⟨h.2.2, h.2.1, s.intersections ++ h.1⟩

/-- Fuel bound used to model the unbounded Python `while` loop; every
execution considered in this development finishes far below it. -/
def FUEL : Nat := 1000

/-- The sweep loop; `.error` marks fuel exhaustion (the model's stand-in for
a non-terminating run, never hit in this development). -/
def sweep_loop : Nat → SweepState → Except String (List Point)
  | 0, _ => .error "sweep loop fuel exhausted"
  | fuel + 1, s =>
    match sweep_step s with
    | none => .ok s.intersections
    | some s' => sweep_loop fuel s'

/-- Queue and status as first set up by `find_intersections`: all normalized
segments' endpoints enqueued, empty status structure, no intersections. -/
def initial_state (segments : List Line) : SweepState :=
  let queue := EventQueue.empty
  let segments := segments.map _normalize_line
  let queue := _add_upper_segment_points queue segments
  ⟨queue, StatusStructure.empty, []⟩

/-- `find_intersections(segments)`.  Note the source's type annotation
promises `list[tuple[Point, Line]]` but the implementation appends bare
points (`intersections.append(event)`), so the model's result type is a
list of points. -/
def find_intersections (segments : List Line) : Except String (List Point) :=
  sweep_loop FUEL (initial_state segments)

/-- The sweep state reached after `n` iterations of the loop (`none` once
the loop has stopped); used to state invariant claims about executions. -/
def state_after (segments : List Line) : Nat → Option SweepState
  | 0 => some (initial_state segments)
  | n + 1 => (state_after segments n).bind sweep_step

/-- Number of events in a queue carrying a given
`(point, role, segment)` triple. -/
def count_triple (q : EventQueue) (point : Point) (e_type : EventType)
    (line : Line) : Nat :=
  (q.heap.filter (fun n =>
    n.point = point ∧ n.event_type = e_type ∧ n.line = line)).length

end FI

/-! ## Verification of the event queue's binary heap -/

namespace EQ

/-- `EventType.value` is injective. -/
theorem EventType.value_injective {t u : EventType}
    (h : t.value = u.value) : t = u := by
  cases t <;> cases u <;> simp [EventType.value] at h ⊢

/-- Priority key of an event: `_has_higher_priority` is exactly the strict
lexicographic order on `(-y, x, role value, id)`. -/
def prioKey (n : Node) : ℚ ×ₗ (ℚ ×ₗ (ℕ ×ₗ ℕ)) :=
  toLex (-n.point.y, toLex (n.point.x, toLex (n.event_type.value, n.id)))

theorem hhp_iff_lt (a b : Node) :
    _has_higher_priority a b = true ↔ prioKey a < prioKey b := by
  unfold _has_higher_priority prioKey
  simp only [Prod.Lex.lt_iff, neg_lt_neg_iff, neg_inj, gt_iff_lt]
  by_cases hy : a.point.y = b.point.y
  · by_cases hx : a.point.x = b.point.x
    · by_cases ht : a.event_type = b.event_type
      · simp [hy, hx, ht]
      · have hv : a.event_type.value ≠ b.event_type.value :=
          fun h => ht (EventType.value_injective h)
        simp [hy, hx, ht, hv]
    · simp [hy, hx]
  · simp [hy]

theorem hhp_eq_false_iff (a b : Node) :
    _has_higher_priority a b = false ↔ prioKey b ≤ prioKey a := by
  rw [← not_lt, ← hhp_iff_lt]
  cases h : _has_higher_priority a b <;> simp [h]

/-! ### Indexing and swapping lemmas -/

theorem get_eq_getElem (l : List Node) {i : Nat} (h : i < l.length) :
    get l i = l[i] := by
  unfold get
  rw [List.getElem?_eq_getElem h]
  rfl

theorem get_set_self (l : List Node) {i : Nat} (v : Node)
    (h : i < l.length) : get (l.set i v) i = v := by
  unfold get
  rw [List.getElem?_set_eq_of_lt v h]
  rfl

theorem get_set_ne (l : List Node) {i j : Nat} (v : Node) (h : i ≠ j) :
    get (l.set i v) j = get l j := by
  unfold get
  rw [List.getElem?_set_ne h]

/-- The in-place swap `heap[a], heap[b] = heap[b], heap[a]` as it appears in
`_sift_up` / `_sift_down`. -/
def swapAt (l : List Node) (a b : Nat) : List Node :=
  (l.set a (get l b)).set b (get l a)

theorem length_swapAt (l : List Node) (a b : Nat) :
    (swapAt l a b).length = l.length := by
  simp [swapAt]

theorem get_swapAt_snd (l : List Node) {a b : Nat} (hb : b < l.length) :
    get (swapAt l a b) b = get l a :=
  get_set_self _ _ (by simpa using hb)

theorem get_swapAt_fst (l : List Node) {a b : Nat} (ha : a < l.length)
    (hab : a ≠ b) : get (swapAt l a b) a = get l b := by
  rw [swapAt, get_set_ne _ _ (fun h => hab h.symm), get_set_self _ _ ha]

theorem get_swapAt_other (l : List Node) {a b k : Nat} (hka : k ≠ a)
    (hkb : k ≠ b) : get (swapAt l a b) k = get l k := by
  rw [swapAt, get_set_ne _ _ (fun h => hkb h.symm),
    get_set_ne _ _ (fun h => hka h.symm)]

theorem count_swapAt (l : List Node) {a b : Nat} (ha : a < l.length)
    (hb : b < l.length) (hab : a ≠ b) (x : Node) :
    (swapAt l a b).count x = l.count x := by
  unfold swapAt
  have hb' : b < (l.set a (get l b)).length := by simpa using hb
  rw [List.count_set (get l a) x _ b hb', List.count_set (get l b) x l a ha]
  simp only [List.getElem_set_ne hab, get_eq_getElem l ha, get_eq_getElem l hb]
  have hmem_a : l[a] ∈ l := List.getElem_mem ha
  have hmem_b : l[b] ∈ l := List.getElem_mem hb
  have hca : (l[a] == x) = true → 0 < l.count x := fun h =>
    List.count_pos_iff.mpr ((eq_of_beq h) ▸ hmem_a)
  have hcb : (l[b] == x) = true → 0 < l.count x := fun h =>
    List.count_pos_iff.mpr ((eq_of_beq h) ▸ hmem_b)
  cases hax : l[a] == x <;> cases hbx : l[b] == x <;>
    simp only [hax, hbx, if_true, if_false, Bool.false_eq_true,
      Bool.true_eq_false] at hca hcb ⊢ <;>
    simp_all

theorem perm_swapAt (l : List Node) {a b : Nat} (ha : a < l.length)
    (hb : b < l.length) (hab : a ≠ b) : (swapAt l a b).Perm l :=
  List.perm_iff_count.mpr (count_swapAt l ha hb hab)

/-! ### The heap invariant and the sift operations -/

/-- Parent/child ordering of the implicit binary tree stored in the list:
every child's key is at least its parent's. -/
def heapProp (l : List Node) : Prop :=
  ∀ i, 0 < i → i < l.length →
    prioKey (get l ((i - 1) / 2)) ≤ prioKey (get l i)

theorem parent_lt {i : Nat} (hi : 0 < i) : (i - 1) / 2 < i :=
  lt_of_le_of_lt (Nat.div_le_self _ _) (Nat.sub_lt hi one_pos)

/-- Invariant of `_sift_up` at hole `j`: heap edges hold except into `j`,
and the children of `j` are already at least `j`'s parent. -/
structure SiftUpInv (l : List Node) (j : Nat) : Prop where
  bounded : j < l.length
  heap : ∀ i, 0 < i → i < l.length → i ≠ j →
    prioKey (get l ((i - 1) / 2)) ≤ prioKey (get l i)
  below : ∀ c, 0 < c → c < l.length → (c - 1) / 2 = j → 0 < j →
    prioKey (get l ((j - 1) / 2)) ≤ prioKey (get l c)

theorem siftUpInv_swap (l : List Node) (j : Nat) (hj : 0 < j)
    (hinv : SiftUpInv l j)
    (hswap : _has_higher_priority (get l j) (get l ((j - 1) / 2)) = true) :
    SiftUpInv (swapAt l j ((j - 1) / 2)) ((j - 1) / 2) := by
  set p := (j - 1) / 2 with hp
  have hpj : p < j := parent_lt hj
  have hjlen : j < l.length := hinv.bounded
  have hplen : p < l.length := lt_trans hpj hjlen
  have hlen : (swapAt l j p).length = l.length := length_swapAt l j p
  have hkey : prioKey (get l j) < prioKey (get l p) := (hhp_iff_lt _ _).mp hswap
  have hgp : get (swapAt l j p) p = get l j := get_swapAt_snd l hplen
  have hgj : get (swapAt l j p) j = get l p :=
    get_swapAt_fst l hjlen (Nat.ne_of_lt hpj).symm
  have hgo : ∀ k, k ≠ j → k ≠ p → get (swapAt l j p) k = get l k :=
    fun k h1 h2 => get_swapAt_other l h1 h2
  refine ⟨by omega, ?_, ?_⟩
  · intro i hi hilen hip
    rw [hlen] at hilen
    by_cases hij : i = j
    · subst hij
      rw [← hp, hgp, hgj]
      exact le_of_lt hkey
    · have hgi : get (swapAt l j p) i = get l i := hgo i hij hip
      by_cases hpi : (i - 1) / 2 = p
      · rw [hpi, hgp, hgi]
        have h2 := hinv.heap i hi hilen hij
        rw [hpi] at h2
        exact le_trans (le_of_lt hkey) h2
      · by_cases hpij : (i - 1) / 2 = j
        · rw [hpij, hgj, hgi]
          exact hinv.below i hi hilen hpij hj
        · rw [hgo _ hpij hpi, hgi]
          exact hinv.heap i hi hilen hij
  · intro c hc hclen hcp hppos
    rw [hlen] at hclen
    have hpp : (p - 1) / 2 ≠ p := Nat.ne_of_lt (parent_lt hppos)
    have hppj : (p - 1) / 2 ≠ j := Nat.ne_of_lt (lt_trans (parent_lt hppos) hpj)
    rw [hgo _ hppj hpp]
    by_cases hcj : c = j
    · subst hcj
      rw [hgj]
      exact hinv.heap p hppos hplen (Nat.ne_of_lt hpj)
    · have hcp' : c ≠ p := by omega
      rw [hgo _ hcj hcp']
      have h2 := hinv.heap c hc hclen hcj
      rw [hcp] at h2
      exact le_trans (hinv.heap p hppos hplen (Nat.ne_of_lt hpj)) h2

theorem siftUp_heapProp (fuel : Nat) :
    ∀ (j : Nat) (l : List Node), j < fuel → SiftUpInv l j →
      heapProp (_sift_up fuel l j) := by
  induction fuel with
  | zero =>
    intro j l hf hinv
    exact absurd hf (Nat.not_lt_zero j)
  | succ fuel ih =>
    intro j l hf hinv
    rw [_sift_up]
    by_cases hj : j > 0
    · rw [if_pos hj]
      by_cases hs : _has_higher_priority (get l j) (get l ((j - 1) / 2)) = true
      · rw [if_pos hs]
        exact ih ((j - 1) / 2) _ (by have := parent_lt hj; omega)
          (siftUpInv_swap l j hj hinv hs)
      · rw [if_neg hs]
        intro i hi hilen
        by_cases hij : i = j
        · subst hij
          exact (hhp_eq_false_iff _ _).mp (Bool.eq_false_iff.mpr hs)
        · exact hinv.heap i hi hilen hij
    · rw [if_neg hj]
      intro i hi hilen
      exact hinv.heap i hi hilen (by omega)

theorem sd_check_left_cases (l : List Node) (r : Nat) :
    (_sd_check_left l r = r ∧ (2 * r + 1 < l.length →
      prioKey (get l r) ≤ prioKey (get l (2 * r + 1)))) ∨
    (_sd_check_left l r = 2 * r + 1 ∧ 2 * r + 1 < l.length ∧
      prioKey (get l (2 * r + 1)) < prioKey (get l r)) := by
  simp only [_sd_check_left]
  by_cases h : 2 * r + 1 ≤ l.length - 1 ∧
      _has_higher_priority (get l (2 * r + 1)) (get l r) = true
  · rw [if_pos h]
    exact Or.inr ⟨rfl, by omega, (hhp_iff_lt _ _).mp h.2⟩
  · rw [if_neg h]
    refine Or.inl ⟨rfl, fun hb => ?_⟩
    have hn : ¬ _has_higher_priority (get l (2 * r + 1)) (get l r) = true :=
      fun hp => h ⟨by omega, hp⟩
    exact (hhp_eq_false_iff _ _).mp (Bool.eq_false_iff.mpr hn)

theorem sd_highest_cases (l : List Node) (r : Nat) :
    (_sd_highest l r = r ∧
      ∀ c, (c = 2 * r + 1 ∨ c = 2 * r + 2) → c < l.length →
        prioKey (get l r) ≤ prioKey (get l c)) ∨
    (_sd_highest l r ≠ r ∧
      (_sd_highest l r = 2 * r + 1 ∨ _sd_highest l r = 2 * r + 2) ∧
      _sd_highest l r < l.length ∧
      prioKey (get l (_sd_highest l r)) < prioKey (get l r) ∧
      ∀ c, (c = 2 * r + 1 ∨ c = 2 * r + 2) → c < l.length →
        prioKey (get l (_sd_highest l r)) ≤ prioKey (get l c)) := by
  have hcl := sd_check_left_cases l r
  simp only [_sd_highest]
  rcases hcl with ⟨he, hle⟩ | ⟨he, hb, hlt⟩
  · rw [he]
    by_cases h2 : 2 * r + 2 ≤ l.length - 1 ∧
        _has_higher_priority (get l (2 * r + 2)) (get l r) = true
    · rw [if_pos h2]
      have h2lt : prioKey (get l (2 * r + 2)) < prioKey (get l r) :=
        (hhp_iff_lt _ _).mp h2.2
      refine Or.inr ⟨by omega, Or.inr rfl, by omega, h2lt, ?_⟩
      rintro c (rfl | rfl) hc
      · exact le_trans (le_of_lt h2lt) (hle hc)
      · exact le_refl _
    · rw [if_neg h2]
      refine Or.inl ⟨rfl, ?_⟩
      rintro c (rfl | rfl) hc
      · exact hle hc
      · have hn : ¬ _has_higher_priority (get l (2 * r + 2)) (get l r) = true :=
          fun hp => h2 ⟨by omega, hp⟩
        exact (hhp_eq_false_iff _ _).mp (Bool.eq_false_iff.mpr hn)
  · rw [he]
    by_cases h2 : 2 * r + 2 ≤ l.length - 1 ∧
        _has_higher_priority (get l (2 * r + 2)) (get l (2 * r + 1)) = true
    · rw [if_pos h2]
      have h2lt : prioKey (get l (2 * r + 2)) < prioKey (get l (2 * r + 1)) :=
        (hhp_iff_lt _ _).mp h2.2
      refine Or.inr ⟨by omega, Or.inr rfl, by omega,
        lt_trans h2lt hlt, ?_⟩
      rintro c (rfl | rfl) hc
      · exact le_of_lt h2lt
      · exact le_refl _
    · rw [if_neg h2]
      refine Or.inr ⟨by omega, Or.inl rfl, hb, hlt, ?_⟩
      rintro c (rfl | rfl) hc
      · exact le_refl _
      · have hn : ¬ _has_higher_priority (get l (2 * r + 2)) (get l (2 * r + 1)) = true :=
          fun hp => h2 ⟨by omega, hp⟩
        exact (hhp_eq_false_iff _ _).mp (Bool.eq_false_iff.mpr hn)

/-- Invariant of `_sift_down` at hole `r`: heap edges hold except out of
`r`, and the children of `r` are already at least `r`'s parent. -/
structure SiftDownInv (l : List Node) (r : Nat) : Prop where
  heap : ∀ i, 0 < i → i < l.length → (i - 1) / 2 ≠ r →
    prioKey (get l ((i - 1) / 2)) ≤ prioKey (get l i)
  above : ∀ c, 0 < c → c < l.length → (c - 1) / 2 = r → 0 < r →
    prioKey (get l ((r - 1) / 2)) ≤ prioKey (get l c)

theorem siftDownInv_swap (l : List Node) (r : Nat) (hinv : SiftDownInv l r)
    (hne : _sd_highest l r ≠ r) :
    SiftDownInv (swapAt l r (_sd_highest l r)) (_sd_highest l r) := by
  rcases sd_highest_cases l r with ⟨he, -⟩ | ⟨-, hps, hblt, hkey, hch⟩
  · exact absurd he hne
  set m := _sd_highest l r with hm
  have hparent : (m - 1) / 2 = r := by omega
  have hrm : r < m := by omega
  have hrlen : r < l.length := lt_trans hrm hblt
  have hg_r : get (swapAt l r m) r = get l m :=
    get_swapAt_fst l hrlen (Nat.ne_of_lt hrm)
  have hg_m : get (swapAt l r m) m = get l r := get_swapAt_snd l hblt
  have hgo : ∀ k, k ≠ r → k ≠ m → get (swapAt l r m) k = get l k :=
    fun k h1 h2 => get_swapAt_other l h1 h2
  have hlen : (swapAt l r m).length = l.length := length_swapAt l r m
  constructor
  · intro i hi0 hilen hpi
    rw [hlen] at hilen
    by_cases him : i = m
    · rw [him, hparent, hg_r, hg_m]
      exact le_of_lt hkey
    · by_cases hir : i = r
      · rw [hir]
        have hr0 : 0 < r := hir ▸ hi0
        have hppr : (r - 1) / 2 < r := parent_lt hr0
        rw [hgo ((r - 1) / 2) (Nat.ne_of_lt hppr)
          (Nat.ne_of_lt (lt_trans hppr hrm)), hg_r]
        exact hinv.above m (by omega) hblt hparent hr0
      · rw [hgo i hir him]
        by_cases hpir : (i - 1) / 2 = r
        · rw [hpir, hg_r]
          exact hch i (by omega) hilen
        · rw [hgo ((i - 1) / 2) hpir hpi]
          exact hinv.heap i hi0 hilen hpir
  · intro c hc0 hclen hcp hm0
    rw [hlen] at hclen
    have hcm : m < c := by omega
    rw [hparent, hg_r, hgo c (by omega) (by omega)]
    have h2 := hinv.heap c hc0 hclen (by omega)
    rw [hcp] at h2
    exact h2

theorem siftDown_heapProp (fuelm : Nat) :
    ∀ (l : List Node) (r : Nat), l.length - r ≤ fuelm → SiftDownInv l r →
      heapProp (_sift_down fuelm l r) := by
  induction fuelm with
  | zero =>
    intro l r hf hinv
    rw [_sift_down]
    have hr : l.length ≤ r := by omega
    intro i hi0 hilen
    exact hinv.heap i hi0 hilen (by omega)
  | succ fuelm ih =>
    intro l r hf hinv
    rw [_sift_down]
    rcases sd_highest_cases l r with ⟨he, hch⟩ | ⟨hne, hps, hblt, -, -⟩
    · rw [if_neg (not_not.mpr he)]
      intro i hi0 hilen
      by_cases hpi : (i - 1) / 2 = r
      · rw [hpi]
        exact hch i (by omega) hilen
      · exact hinv.heap i hi0 hilen hpi
    · rw [if_pos hne]
      have hrm : r < _sd_highest l r := by omega
      exact ih _ _ (by simp only [List.length_set]; omega)
        (siftDownInv_swap l r hinv hne)

theorem siftDown_perm (fuelm : Nat) :
    ∀ (l : List Node) (r : Nat), (_sift_down fuelm l r).Perm l := by
  induction fuelm with
  | zero =>
    intro l r
    rw [_sift_down]
  | succ fuelm ih =>
    intro l r
    rw [_sift_down]
    rcases sd_highest_cases l r with ⟨he, -⟩ | ⟨hne, hps, hblt, -, -⟩
    · rw [if_neg (not_not.mpr he)]
    · rw [if_pos hne]
      have hrm : r < _sd_highest l r := by omega
      have hrlen : r < l.length := lt_trans hrm hblt
      have h1 : (swapAt l r (_sd_highest l r)).Perm l :=
        perm_swapAt l hrlen hblt (Nat.ne_of_lt hrm)
      exact (ih _ _).trans h1

theorem siftUp_perm (fuel : Nat) :
    ∀ (j : Nat) (l : List Node), j < l.length →
      (_sift_up fuel l j).Perm l := by
  induction fuel with
  | zero =>
    intro j l hj
    rw [_sift_up]
  | succ fuel ih =>
    intro j l hj
    rw [_sift_up]
    by_cases hjp : j > 0
    · rw [if_pos hjp]
      by_cases hs : _has_higher_priority (get l j) (get l ((j - 1) / 2)) = true
      · rw [if_pos hs]
        have hplen : (j - 1) / 2 < l.length := lt_trans (parent_lt hjp) hj
        have h1 : (swapAt l j ((j - 1) / 2)).Perm l :=
          perm_swapAt l hj hplen (Nat.ne_of_lt (parent_lt hjp)).symm
        exact (ih ((j - 1) / 2) _ (by simpa using hplen)).trans h1
      · rw [if_neg hs]
    · rw [if_neg hjp]

/-! ### Queue operations preserve the heap invariant -/

theorem get_append_left (l : List Node) (x : Node) {i : Nat}
    (h : i < l.length) : get (l ++ [x]) i = get l i := by
  unfold get
  rw [List.getElem?_append, if_pos h]

theorem get_cons_zero (a : Node) (t : List Node) : get (a :: t) 0 = a := by
  simp [get]

theorem get_dropLast (l : List Node) {i : Nat} (h : i < l.length - 1) :
    get l.dropLast i = get l i := by
  unfold get
  rw [List.getElem?_dropLast, if_pos h]

theorem heapProp_nil : heapProp [] := by
  intro i hi0 hilen
  simp at hilen

theorem heapProp_enqueue (q : EventQueue) (hq : heapProp q.heap)
    (p : Point) (t : EventType) (l : Line) :
    heapProp (enqueue q p t l).heap := by
  show heapProp (_sift_up (q.heap.length + 1)
    (q.heap ++ [⟨p, l, t, q.next_id⟩]) q.heap.length)
  apply siftUp_heapProp _ _ _ (Nat.lt_succ_self _)
  refine ⟨by simp, ?_, ?_⟩
  · intro i hi0 hilen hij
    have hilen' : i < q.heap.length + 1 := by simpa using hilen
    have hi : i < q.heap.length := by omega
    have hp : (i - 1) / 2 < q.heap.length := lt_trans (parent_lt hi0) hi
    rw [get_append_left _ _ hi, get_append_left _ _ hp]
    exact hq i hi0 hi
  · intro c hc0 hclen hcp hj0
    have hclen' : c < q.heap.length + 1 := by simpa using hclen
    omega

theorem enqueue_perm (q : EventQueue) (p : Point) (t : EventType)
    (l : Line) :
    (enqueue q p t l).heap.Perm (q.heap ++ [⟨p, l, t, q.next_id⟩]) := by
  show (_sift_up (q.heap.length + 1)
    (q.heap ++ [⟨p, l, t, q.next_id⟩]) q.heap.length).Perm _
  exact siftUp_perm _ _ _ (by simp)

theorem enqueue_next_id (q : EventQueue) (p : Point) (t : EventType)
    (l : Line) : (enqueue q p t l).next_id = q.next_id + 1 := rfl

theorem dequeue_isSome (q : EventQueue) (hne : q.heap ≠ []) :
    ∃ n q', dequeue q = some (n, q') := by
  obtain ⟨hp, nid⟩ := q
  cases hp with
  | nil => exact absurd rfl hne
  | cons a tl =>
    by_cases h1 : (a :: tl).length = 1
    · exact ⟨_, _, by simp only [dequeue]; rw [if_pos h1]⟩
    · exact ⟨_, _, by simp only [dequeue]; rw [if_neg h1]⟩

theorem dequeue_perm : ∀ (q : EventQueue) (n : Node) (q' : EventQueue),
    dequeue q = some (n, q') →
      q.heap.Perm (n :: q'.heap) ∧ n = get q.heap 0 := by
  rintro ⟨hp, nid⟩ n q' h
  cases hp with
  | nil => simp [dequeue] at h
  | cons a tl =>
    simp only [dequeue] at h
    by_cases h1 : (a :: tl).length = 1
    · rw [if_pos h1, Option.some.injEq, Prod.mk.injEq] at h
      obtain ⟨hn, hq'⟩ := h
      have ht : tl = [] := by simpa using h1
      subst ht
      subst hq'
      refine ⟨?_, hn.symm⟩
      rw [← hn, get_cons_zero]
    · rw [if_neg h1, Option.some.injEq, Prod.mk.injEq] at h
      obtain ⟨hn, hq'⟩ := h
      refine ⟨?_, hn.symm⟩
      subst hq'
      cases tl with
      | nil => simp at h1
      | cons b tl' =>
        simp only
        have htne : (b :: tl') ≠ [] := by simp
        have hlast : get (a :: b :: tl') ((a :: b :: tl').length - 1) =
            (b :: tl').getLast htne := by
          rw [get_eq_getElem _ (by simp), List.getLast_eq_getElem]
          simp
        have hdl : (a :: b :: tl').dropLast = a :: (b :: tl').dropLast := by
          simp
        have hset : ((a :: b :: tl').dropLast).set 0
            (get (a :: b :: tl') ((a :: b :: tl').length - 1)) =
            (b :: tl').getLast htne :: (b :: tl').dropLast := by
          rw [hdl, hlast]
          rfl
        have hperm2 : (b :: tl').Perm
            ((b :: tl').getLast htne :: (b :: tl').dropLast) := by
          conv_lhs => rw [← List.dropLast_append_getLast htne]
          exact List.perm_append_singleton _ _
        have hsd : (_sift_down (((a :: b :: tl').dropLast).set 0
              (get (a :: b :: tl') ((a :: b :: tl').length - 1))).length
            (((a :: b :: tl').dropLast).set 0
              (get (a :: b :: tl') ((a :: b :: tl').length - 1))) 0).Perm
            (((a :: b :: tl').dropLast).set 0
              (get (a :: b :: tl') ((a :: b :: tl').length - 1))) :=
          siftDown_perm _ _ 0
        rw [← hn, get_cons_zero]
        refine List.Perm.trans (List.Perm.cons a hperm2) ?_
        rw [← hset]
        exact List.Perm.cons a hsd.symm

theorem heapProp_dequeue : ∀ (q : EventQueue) (n : Node) (q' : EventQueue),
    dequeue q = some (n, q') → heapProp q.heap → heapProp q'.heap := by
  rintro ⟨hp, nid⟩ n q' h hq
  cases hp with
  | nil => simp [dequeue] at h
  | cons a tl =>
    simp only [dequeue] at h
    by_cases h1 : (a :: tl).length = 1
    · rw [if_pos h1, Option.some.injEq, Prod.mk.injEq] at h
      rw [← h.2]
      exact heapProp_nil
    · rw [if_neg h1, Option.some.injEq, Prod.mk.injEq] at h
      rw [← h.2]
      apply siftDown_heapProp _ _ 0 le_rfl
      constructor
      · intro i hi0 hilen hpi
        simp only [List.length_set, List.length_dropLast,
          List.length_cons] at hilen
        have hi1 : i < (a :: tl).length - 1 := by simpa using hilen
        have hp1 : (i - 1) / 2 < (a :: tl).length - 1 :=
          lt_trans (parent_lt hi0) hi1
        rw [get_set_ne _ _ (fun hh => hpi hh.symm),
          get_set_ne _ _ (fun hh => (Nat.pos_iff_ne_zero.mp hi0) hh.symm),
          get_dropLast _ hi1, get_dropLast _ hp1]
        exact hq i hi0 (by simp only [List.length_cons] at hi1 ⊢; omega)
      · intro c hc0 hclen hcp hr0
        exact absurd hr0 (lt_irrefl 0)

theorem heapProp_root_le (l : List Node) (hl : heapProp l) :
    ∀ i, i < l.length → prioKey (get l 0) ≤ prioKey (get l i) := by
  intro i
  induction i using Nat.strong_induction_on with
  | _ i ih =>
    intro hi
    rcases Nat.eq_zero_or_pos i with h0 | hpos
    · rw [h0]
    · exact le_trans
        (ih ((i - 1) / 2) (parent_lt hpos) (lt_trans (parent_lt hpos) hi))
        (hl i hpos hi)

/-! ### Draining and filling the queue -/

/-- Repeatedly dequeue until the queue is empty; `fuel` bounds the number of
dequeues and is instantiated with the queue's size. -/
def dequeue_list : Nat → EventQueue → List Node
  | 0, _ => []
  | fuel + 1, q =>
    match dequeue q with
    | none => []
    | some nq => nq.1 :: dequeue_list fuel nq.2

/-- Enqueue a list of `(point, role, segment)` requests in order. -/
def enqueue_list (q : EventQueue)
    (items : List (Point × EventType × Line)) : EventQueue :=
  items.foldl (fun acc it => enqueue acc it.1 it.2.1 it.2.2) q

theorem dequeue_length (q : EventQueue) (n : Node) (q' : EventQueue)
    (h : dequeue q = some (n, q')) : q.heap.length = q'.heap.length + 1 := by
  have := (dequeue_perm q n q' h).1.length_eq
  simpa using this

theorem dequeue_list_perm : ∀ (fuel : Nat) (q : EventQueue),
    q.heap.length ≤ fuel → (dequeue_list fuel q).Perm q.heap := by
  intro fuel
  induction fuel with
  | zero =>
    intro q hf
    have h0 : q.heap = [] := List.length_eq_zero.mp (by omega)
    rw [h0]
    exact List.Perm.refl _
  | succ fuel ih =>
    intro q hf
    cases h : dequeue q with
    | none =>
      have h0 : q.heap = [] := by
        by_contra hne
        obtain ⟨n, q', hs⟩ := dequeue_isSome q hne
        rw [hs] at h
        cases h
      simp [dequeue_list, h, h0]
    | some nq =>
      obtain ⟨n, q'⟩ := nq
      simp only [dequeue_list, h]
      have hl := dequeue_length q n q' h
      exact (List.Perm.cons n (ih q' (by omega))).trans
        (dequeue_perm q n q' h).1.symm

theorem mem_dequeue_list : ∀ (fuel : Nat) (q : EventQueue) (x : Node),
    x ∈ dequeue_list fuel q → x ∈ q.heap := by
  intro fuel
  induction fuel with
  | zero =>
    intro q x hx
    simp [dequeue_list] at hx
  | succ fuel ih =>
    intro q x hx
    cases h : dequeue q with
    | none => simp [dequeue_list, h] at hx
    | some nq =>
      obtain ⟨n, q'⟩ := nq
      simp only [dequeue_list, h] at hx
      have hp := (dequeue_perm q n q' h).1
      rcases List.mem_cons.mp hx with rfl | hx'
      · exact hp.mem_iff.mpr (List.mem_cons_self _ _)
      · exact hp.mem_iff.mpr (List.mem_cons_of_mem _ (ih q' x hx'))

theorem dequeue_list_sorted : ∀ (fuel : Nat) (q : EventQueue),
    heapProp q.heap →
    List.Pairwise (fun a b => _has_higher_priority b a = false)
      (dequeue_list fuel q) := by
  intro fuel
  induction fuel with
  | zero =>
    intro q hq
    simp [dequeue_list]
  | succ fuel ih =>
    intro q hq
    cases h : dequeue q with
    | none => simp [dequeue_list, h]
    | some nq =>
      obtain ⟨n, q'⟩ := nq
      simp only [dequeue_list, h]
      rw [List.pairwise_cons]
      constructor
      · intro b hb
        have hbq : b ∈ q.heap := (dequeue_perm q n q' h).1.mem_iff.mpr
          (List.mem_cons_of_mem _ (mem_dequeue_list fuel q' b hb))
        obtain ⟨j, hj, hbj⟩ := List.mem_iff_getElem.mp hbq
        have hroot := heapProp_root_le q.heap hq j hj
        rw [get_eq_getElem _ hj, hbj] at hroot
        rw [(dequeue_perm q n q' h).2]
        exact (hhp_eq_false_iff b (get q.heap 0)).mpr hroot
      · exact ih q' (heapProp_dequeue q n q' h hq)

theorem enqueue_list_heapProp : ∀ (items : List (Point × EventType × Line))
    (q : EventQueue), heapProp q.heap →
    heapProp (enqueue_list q items).heap := by
  intro items
  induction items with
  | nil => exact fun q hq => hq
  | cons it its ih =>
    intro q hq
    exact ih _ (heapProp_enqueue q hq it.1 it.2.1 it.2.2)

/-- Enqueue never deduplicates: inserting an event whose
`(point, role, segment)` triple is already present still adds one more
matching event (helper for the C8 amendment). -/
theorem countP_enqueue (q : EventQueue) (point : Point) (e_type : EventType)
    (line : Line) (pr : Node → Bool)
    (hpr : pr ⟨point, line, e_type, q.next_id⟩ = true) :
    (enqueue q point e_type line).heap.countP pr = q.heap.countP pr + 1 := by
  rw [(enqueue_perm q point e_type line).countP_eq, List.countP_append]
  simp [List.countP_cons, hpr]

theorem enqueue_list_perm :
    ∀ (items : List (Point × EventType × Line)) (q : EventQueue),
    (enqueue_list q items).heap.Perm
      (q.heap ++ (List.enumFrom q.next_id items).map
        (fun pr => Node.mk pr.2.1 pr.2.2.2 pr.2.2.1 pr.1)) := by
  intro items
  induction items with
  | nil =>
    intro q
    simp [enqueue_list]
  | cons it its ih =>
    intro q
    have h1 := ih (enqueue q it.1 it.2.1 it.2.2)
    rw [enqueue_next_id] at h1
    refine List.Perm.trans h1 ?_
    refine List.Perm.trans
      ((enqueue_perm q it.1 it.2.1 it.2.2).append_right _) ?_
    rw [List.append_assoc]
    have he : List.enumFrom q.next_id (it :: its) =
        (q.next_id, it) :: List.enumFrom (q.next_id + 1) its := rfl
    rw [he]
    simp only [List.map_cons, List.singleton_append]
    exact List.Perm.refl _

end EQ

/-! ## Claims -/

open EQ ST FI

/-- C1: the claim states that `get_intersection(A, B)` returns a `Point`
exactly when the supporting lines of `A` and `B` intersect at parameters
`t` (along A) and `u` (along B) both in `[0, 1]`, and that the returned
point is that intersection point of the segments.  The source instead
builds the first segment's direction from `l2.end`
(`p1, p2 = l1.start, l2.end`, a slip contradicting the function's own
docstring and comment): on A = (0,0)-(10,10), B = (0,10)-(10,0), whose true
intersection at `t = u = 1/2` is (5,5) (computed by
`get_intersection_specified`, the formula the claim describes), the code
returns (10,0), which is not the intersection point of A and B. -/
theorem claim_C1_get_intersection_wrong_point :
    get_intersection ⟨⟨0, 0⟩, ⟨10, 10⟩⟩ ⟨⟨0, 10⟩, ⟨10, 0⟩⟩ =
      some ⟨10, 0⟩ ∧
    get_intersection_specified ⟨⟨0, 0⟩, ⟨10, 10⟩⟩ ⟨⟨0, 10⟩, ⟨10, 0⟩⟩ =
      some ⟨5, 5⟩ ∧
    (⟨10, 0⟩ : Point) ≠ ⟨5, 5⟩ := by
  refine ⟨by with_unfolding_all rfl, by with_unfolding_all rfl, ?_⟩
  intro h
  injection h with hx hy
  exact absurd hx (by norm_num)

/-- C2: the claim states that `find_intersections` on the crossing pair
(0,0)-(10,10) and (0,10)-(10,0) reports exactly one intersection at (5,5).
The code (through the `get_intersection` slip) reports two points, (0,0)
and (10,0), neither of which is within any tolerance of (5,5). -/
theorem claim_C2_crossing_pair_output :
    find_intersections [⟨⟨0, 0⟩, ⟨10, 10⟩⟩, ⟨⟨0, 10⟩, ⟨10, 0⟩⟩] =
      Except.ok [⟨0, 0⟩, ⟨10, 0⟩] ∧
    isclose 0 5 = false := by
  refine ⟨?_, ?_⟩ <;> with_unfolding_all rfl

/-- C3: the claim states that `find_intersections` returns
(Point, contributing-segments) records.  The implementation appends bare
points (`intersections.append(event)`), contradicting its own annotation
`list[tuple[Point, Line]]` and docstring: on the source's own module-level
test input (the shared-endpoint "X"), the result is the list of bare points
`[(5, 10)]`, with no contributing segments attached (the embedded result
type is `List Point` because that is what the code builds). -/
theorem claim_C3_bare_point_records :
    find_intersections [⟨⟨5, 10⟩, ⟨0, 0⟩⟩, ⟨⟨5, 10⟩, ⟨10, 0⟩⟩] =
      Except.ok [⟨5, 10⟩] := by
  with_unfolding_all rfl

/-- C4 counterexample: the claim orders same-point events
UPPER < INTERIOR < LOWER.  Enqueue an INTERIOR event (sequence id 0) and a
LOWER event (sequence id 1) at the same point: `dequeue` returns the LOWER
event first, and the comparator does not rank the earlier INTERIOR event
above the LOWER one. -/
theorem claim_C4_counterexample_lower_before_interior :
    (dequeue (enqueue (enqueue EventQueue.empty ⟨0, 0⟩ EventType.INTERIOR
        ⟨⟨0, 10⟩, ⟨0, 0⟩⟩) ⟨0, 0⟩ EventType.LOWER ⟨⟨0, 10⟩, ⟨0, 0⟩⟩)).map
      (fun nq => nq.1.event_type) = some EventType.LOWER ∧
    _has_higher_priority ⟨⟨0, 0⟩, ⟨⟨0, 10⟩, ⟨0, 0⟩⟩, EventType.INTERIOR, 0⟩
      ⟨⟨0, 0⟩, ⟨⟨0, 10⟩, ⟨0, 0⟩⟩, EventType.LOWER, 1⟩ = false := by
  refine ⟨?_, ?_⟩ <;> with_unfolding_all rfl

/-- C4 amended: for every two events whose points are equal, the comparator
orders them by role with UPPER first, then LOWER, then INTERIOR (the
`auto()` enum values 1, 2, 3), and on equal roles by lowest sequence id. -/
theorem claim_C4_role_order (a b : EQ.Node) (hpt : a.point = b.point) :
    _has_higher_priority a b = true ↔
      (a.event_type.value < b.event_type.value ∨
        (a.event_type = b.event_type ∧ a.id < b.id)) := by
  unfold _has_higher_priority
  rw [hpt]
  by_cases ht : a.event_type = b.event_type
  · have hv : a.event_type.value = b.event_type.value := by rw [ht]
    simp [ht, hv]
  · have hv : a.event_type.value ≠ b.event_type.value :=
      fun h => ht (EventType.value_injective h)
    simp [ht, hv, Nat.lt_iff_le_and_ne]

/-- C4 witness: the amended role-order characterization applied to two
concrete same-point events (a LOWER event with id 5 against an INTERIOR
event with id 3). -/
theorem claim_C4_role_order_witness :
    ((⟨⟨0, 0⟩, ⟨⟨0, 1⟩, ⟨0, 0⟩⟩, EventType.LOWER, 5⟩ : EQ.Node).point =
      (⟨⟨0, 0⟩, ⟨⟨0, 1⟩, ⟨0, 0⟩⟩, EventType.INTERIOR, 3⟩ : EQ.Node).point) ∧
    (_has_higher_priority ⟨⟨0, 0⟩, ⟨⟨0, 1⟩, ⟨0, 0⟩⟩, EventType.LOWER, 5⟩
        ⟨⟨0, 0⟩, ⟨⟨0, 1⟩, ⟨0, 0⟩⟩, EventType.INTERIOR, 3⟩ = true ↔
      ((EventType.LOWER.value < EventType.INTERIOR.value ∨
        (EventType.LOWER = EventType.INTERIOR ∧ 5 < 3)))) :=
  ⟨rfl, claim_C4_role_order
    ⟨⟨0, 0⟩, ⟨⟨0, 1⟩, ⟨0, 0⟩⟩, EventType.LOWER, 5⟩
    ⟨⟨0, 0⟩, ⟨⟨0, 1⟩, ⟨0, 0⟩⟩, EventType.INTERIOR, 3⟩ rfl⟩

/-- C5: the claim states that when the two segments' x-coordinates at the
sweep height differ by more than the tolerance, the smaller-x segment sorts
left, slopes being only a tie-break.  In the source `_compare_segments`
never compares the x-coordinates: outside the `isclose` tie it orders by
`_get_dx_dy` alone, contradicting its own docstring ("determines the
horizontal order").  At sweep height 0, segment (0,1)-(-1,0) has
x-coordinate -1 and segment (5,1)-(6,0) has x-coordinate 6 (far beyond the
tolerance), yet the comparator returns 1, sorting the smaller-x segment to
the right (its dx/dy, 1, exceeds the other's, -1). -/
theorem claim_C5_compare_ignores_x_order :
    _sweep_intersect ⟨⟨0, 1⟩, ⟨-1, 0⟩⟩ 0 = -1 ∧
    _sweep_intersect ⟨⟨5, 1⟩, ⟨6, 0⟩⟩ 0 = 6 ∧
    isclose (-1) 6 = false ∧
    _compare_segments (update_sweep_line StatusStructure.empty 0)
      ⟨⟨0, 1⟩, ⟨-1, 0⟩⟩ ⟨⟨5, 1⟩, ⟨6, 0⟩⟩ = 1 := by
  refine ⟨?_, ?_, ?_, ?_⟩ <;> with_unfolding_all rfl

/-- C6 counterexample: `Line((0,0),(1,1))` and its reverse hash equal (the
hash key, the frozenset of endpoints, coincides) but do not compare equal:
the dataclass `__eq__` is fieldwise on `(start, end)`, so as set members or
dict keys they are two distinct elements. -/
theorem claim_C6_counterexample_reverse_not_equal :
    lineHashKey ⟨⟨0, 0⟩, ⟨1, 1⟩⟩ = lineHashKey ⟨⟨1, 1⟩, ⟨0, 0⟩⟩ ∧
    (⟨⟨0, 0⟩, ⟨1, 1⟩⟩ : Line) ≠ ⟨⟨1, 1⟩, ⟨0, 0⟩⟩ := by
  constructor
  · simp [lineHashKey, Finset.pair_comm]
  · intro h
    injection h with h1 h2
    injection h1 with hx hy
    exact absurd hx (by norm_num)

/-- C6 amended: `Line(p, q)` and `Line(q, p)` always hash equal (the hash
is derived from the unordered endpoint set), but they compare equal only
when `p = q`; for distinct endpoints they are distinct set members or map
keys. -/
theorem claim_C6_hash_unordered_eq_ordered (p q : Point) :
    lineHashKey ⟨p, q⟩ = lineHashKey ⟨q, p⟩ ∧
    ((⟨p, q⟩ : Line) = ⟨q, p⟩ ↔ p = q) := by
  constructor
  · simp [lineHashKey, Finset.pair_comm]
  · constructor
    · intro h
      injection h
    · intro h
      rw [h]

/-- C7 counterexample: the input `[Line((0,0),(0,0))]` contains a
zero-length segment, yet `find_intersections` performs no ingestion
validation: it runs the sweep to normal completion and returns an ordinary
empty result instead of an input-validation failure. -/
theorem claim_C7_counterexample_degenerate_accepted :
    find_intersections [⟨⟨0, 0⟩, ⟨0, 0⟩⟩] = Except.ok [] := by
  with_unfolding_all rfl

/-- C7 amended: zero-length segments are not rejected.  `find_intersections`
has no validation at ingestion: both endpoint events of the degenerate
segment are enqueued (the initial queue holds 2 events) and the sweep loop
runs and terminates normally with an empty result. -/
theorem claim_C7_no_ingestion_validation :
    find_intersections [⟨⟨5, 5⟩, ⟨5, 5⟩⟩] = Except.ok [] ∧
    (initial_state [⟨⟨5, 5⟩, ⟨5, 5⟩⟩]).queue.heap.length = 2 := by
  refine ⟨?_, ?_⟩ <;> with_unfolding_all rfl

/-- C8 counterexample: in the execution of `find_intersections` on
[(0,0)-(10,10), (0,10)-(10,0)], after two iterations of the sweep loop the
event queue holds the triple ((0,0), INTERIOR, (0,10)-(10,0)) twice:
`_handle_event_point` probes the same neighbor pair once per inserted
segment and once more for the group's leftmost segment, and `enqueue`
never rejects. -/
theorem claim_C8_counterexample_duplicate_triple :
    (state_after [⟨⟨0, 0⟩, ⟨10, 10⟩⟩, ⟨⟨0, 10⟩, ⟨10, 0⟩⟩] 2).map
      (fun s => count_triple s.queue ⟨0, 0⟩ EventType.INTERIOR
        ⟨⟨0, 10⟩, ⟨10, 0⟩⟩) = some 2 := by
  with_unfolding_all rfl

/-- C8 amended: the EventQueue performs no deduplication: every `enqueue`
of a `(point, role, segment)` triple adds one more event carrying that
triple, whether or not one is already queued (events are distinguished
only by their fresh sequence ids), so duplicate triples do occur during
executions. -/
theorem claim_C8_enqueue_never_dedups (q : EventQueue) (point : Point)
    (e_type : EventType) (line : Line) :
    count_triple (enqueue q point e_type line) point e_type line =
      count_triple q point e_type line + 1 := by
  unfold count_triple
  rw [← List.countP_eq_length_filter, ← List.countP_eq_length_filter]
  exact countP_enqueue q point e_type line _ (by simp)

/-- C9: for every list of `(point, role, segment)` insertion requests, in
any order, filling the EventQueue and then dequeuing until empty yields
the created events in non-decreasing sweep-priority order under the
comparator (`_has_higher_priority`: higher y first; on tied y, lower x;
then role; then sequence id) — no later event has strictly higher priority
than an earlier one — and the dequeued events are exactly the enqueued
ones (each request `items[i]` becoming the event with sequence id `i`),
regardless of insertion order. -/
theorem claim_C9_dequeue_sorted_permutation
    (items : List (Point × EventType × Line)) :
    List.Pairwise (fun a b => _has_higher_priority b a = false)
      (dequeue_list (number_items (enqueue_list EventQueue.empty items))
        (enqueue_list EventQueue.empty items)) ∧
    (dequeue_list (number_items (enqueue_list EventQueue.empty items))
        (enqueue_list EventQueue.empty items)).Perm
      ((List.enumFrom 0 items).map
        (fun pr => Node.mk pr.2.1 pr.2.2.2 pr.2.2.1 pr.1)) := by
  have hq : heapProp (enqueue_list EventQueue.empty items).heap :=
    enqueue_list_heapProp items EventQueue.empty heapProp_nil
  constructor
  · exact dequeue_list_sorted _ _ hq
  · refine (dequeue_list_perm _ _ le_rfl).trans ?_
    have h := enqueue_list_perm items EventQueue.empty
    simpa using h

/-- C10: `StatusStructure.delete(s)` removes the first node on the search
path whose stored segment compares equal to `s` under the
current-sweep-height comparator, not necessarily the node storing `s`: at
sweep height 5, the vertical segment `t = (0,10)-(0,0)` and
`s = (-5,10)-(5,0)` both cross the sweep line at x = 0, so
`_compare_segments` ties them (0); with both inserted (in-order `[t, s]`),
`delete(s)` removes `t`'s node while `s` remains stored in the tree. -/
theorem claim_C10_delete_removes_comparator_equal_node :
    (⟨⟨-5, 10⟩, ⟨5, 0⟩⟩ : Line) ≠ ⟨⟨0, 10⟩, ⟨0, 0⟩⟩ ∧
    _compare_segments
      ((insert ((insert (update_sweep_line StatusStructure.empty 5)
        ⟨⟨0, 10⟩, ⟨0, 0⟩⟩).1) ⟨⟨-5, 10⟩, ⟨5, 0⟩⟩).1)
      ⟨⟨-5, 10⟩, ⟨5, 0⟩⟩ ⟨⟨0, 10⟩, ⟨0, 0⟩⟩ = 0 ∧
    inorder ((insert ((insert (update_sweep_line StatusStructure.empty 5)
        ⟨⟨0, 10⟩, ⟨0, 0⟩⟩).1) ⟨⟨-5, 10⟩, ⟨5, 0⟩⟩).1).tree =
      [⟨⟨0, 10⟩, ⟨0, 0⟩⟩, ⟨⟨-5, 10⟩, ⟨5, 0⟩⟩] ∧
    inorder (delete ((insert ((insert (update_sweep_line
        StatusStructure.empty 5) ⟨⟨0, 10⟩, ⟨0, 0⟩⟩).1)
        ⟨⟨-5, 10⟩, ⟨5, 0⟩⟩).1) ⟨⟨-5, 10⟩, ⟨5, 0⟩⟩).tree =
      [⟨⟨-5, 10⟩, ⟨5, 0⟩⟩] := by
  refine ⟨?_, ?_, ?_, ?_⟩
  · intro h
    injection h with h1 h2
    injection h1 with hx hy
    exact absurd hx (by norm_num)
  · with_unfolding_all rfl
  · with_unfolding_all rfl
  · with_unfolding_all rfl

end CGP
